import Mathlib

/-!
Verification of the trename conflict-resolution and ordered-execution engine.

Shallow embedding of the repository code:
  * `models.py`    — rename-tree data model and aggregate counts;
  * `validator.py` — file-name sanitization, extension-placement validation,
                     conflict detection and the ordered operation list;
  * `renamer.py`   — batch execution (dry run and real run);
  * `undo.py`      — undo ledger (record, undo of a batch).

Modelling conventions:
  * Python strings are `List Char` (`Str`); Python `pathlib.Path` values are
    lists of path components relative to the filesystem root (`FsPath`);
    `p / name` splits `name` on the separator and drops empty components,
    matching pathlib normalisation for relative names without dot segments.
  * The filesystem is the set of existing paths (`FS := List FsPath`);
    `shutil.move` is modelled as a prefix rewrite of every existing path.
  * Human-readable messages are modelled as inductive values (`Msg`, `CMsg`)
    carrying the data interpolated into the Python format strings; the
    substring tests the code performs (for example looking for the error
    marker inside a message) become total functions on those values.
  * The members `ILLEGAL_CHARS`/`INVALID_EXTENSION` referenced by
    `validator.py` do not exist on the `ConflictType` enum of `models.py`;
    evaluating those attribute accesses raises `AttributeError` in Python,
    so `validate` is embedded as an `Except String` computation that throws
    exactly where the Python attribute access would.
  * `uuid.uuid4()` is modelled by a caller-supplied fresh identifier.
-/

namespace Trename

/-- Python `str`, as a list of characters. -/
abbrev Str := List Char

/-- A filesystem path, as the list of its components below the root. -/
abbrev FsPath := List Str

/-- Python `str.split(sep)`: splits on every occurrence, keeping empties. -/
def splitChar (sep : Char) : Str → List Str
  | [] => [[]]
  | c :: rest =>
    match splitChar sep rest with
    | [] => [[]]
    | h :: t => if c = sep then [] :: h :: t else (c :: h) :: t

/-- `pathlib` path division `p / name`: the name is split on the separator
and empty components are dropped. -/
def pathJoin (p : FsPath) (name : Str) : FsPath :=
  p ++ (splitChar '/' name).filter (fun s => s ≠ [])

/-- The string form `str(path)` used for ordering: every component preceded
by a separator.  All compared paths share the same resolved base, so this
induces exactly the ordering Python obtains on the full path strings. -/
def pathStr (p : FsPath) : Str :=
  p.foldl (fun acc comp => acc ++ '/' :: comp) []

/-- `pathlib.PurePath.name`: the final component. -/
def pathName (p : FsPath) : Str := p.getLast?.getD []

/-- Lexicographic comparison of strings by code point (Python `<=` on `str`). -/
def strLe : Str → Str → Bool
  | [], _ => true
  | _ :: _, [] => false
  | c :: cs, d :: ds =>
    if c.val < d.val then true
    else if d.val < c.val then false
    else strLe cs ds

/-- Stable insertion of `x` after all already-placed elements `y` with
`le y x`; used to model Python `sorted` (a stable ascending sort). -/
def insertLe (le : α → α → Bool) (x : α) : List α → List α
  | [] => [x]
  | y :: ys => if le y x then y :: insertLe le x ys else x :: y :: ys

/-- Python `sorted(l, key=...)` folded left with stable insertion. -/
def sortLe (le : α → α → Bool) (l : List α) : List α :=
  l.foldl (fun acc x => insertLe le x acc) []

/-! ## validator.py: illegal characters and sanitization -/

/-- `ILLEGAL_CHARS` / the character class of `ILLEGAL_CHARS_PATTERN`. -/
def illegalChars : List Char := ['/', '\\', ':', '*', '?', '"', '<', '>', '|']

/-- Membership in the illegal-character class. -/
def isIllegal (c : Char) : Bool := illegalChars.contains c

/-- `CHAR_REPLACEMENT_MAP.get(char, underscore)`: the full-width lookalike of
each illegal character, defaulting to the underscore. -/
def replOf (c : Char) : Char :=
  if c = '/' then '／'
  else if c = '\\' then '＼'
  else if c = ':' then '：'
  else if c = '*' then '＊'
  else if c = '?' then '？'
  else if c = '"' then '＂'
  else if c = '<' then '＜'
  else if c = '>' then '＞'
  else if c = '|' then '｜'
  else '_'

/-- The validation messages produced by `sanitize_filename`,
`validate_extension_position` and `validate_target_name`, as structured
values.  `errExtIllegal` and `errExtSuffix` are the two messages carrying
the Python `[ERROR]` marker; `errExtIllegal` and `autoFix` are the two
messages containing the Chinese phrase for "illegal characters". -/
inductive Msg where
  | errExtIllegal (ext illegalFound : Str)
  | autoFix (reps : List (Char × Char))
  | errExtSuffix (name part potentialExt : Str)
  | warnExtChange (srcExt tgtExt : Str)
deriving DecidableEq

/-- Whether the rendered message would contain the `[ERROR]` marker. -/
def Msg.isError : Msg → Bool
  | .errExtIllegal _ _ => true
  | .errExtSuffix _ _ _ => true
  | _ => false

/-- Whether the rendered message would contain the Chinese phrase for
"illegal characters" tested by `_validate_node`. -/
def Msg.mentionsIllegalChars : Msg → Bool
  | .errExtIllegal _ _ => true
  | .autoFix _ => true
  | _ => false

/-- Split at the last dot: `(name[:name.rfind(dot)], name[name.rfind(dot):])`.
When the string holds no dot the whole string is returned as the first
component (the callers only use the split after checking a dot exists). -/
def rsplitDot : Str → Str × Str
  | [] => ([], [])
  | c :: rest =>
    if ('.' : Char) ∈ rest then
      ((c :: (rsplitDot rest).1), (rsplitDot rest).2)
    else if c = '.' then ([], c :: rest)
    else (c :: rest, [])

/-- The replacement loop of `sanitize_filename`: for each found character,
if it occurs in the original base name, replace every occurrence in the
accumulated base and record the replacement pair. -/
def replStep (origBase : Str) (acc : Str × List (Char × Char)) (c : Char) :
    Str × List (Char × Char) :=
  if c ∈ origBase then
    (acc.1.map (fun x => if x = c then replOf c else x), acc.2 ++ [(c, replOf c)])
  else acc

/-- The tail of `sanitize_filename` after the base/extension split: replace
illegal characters in the base name and reassemble with the extension. -/
def finishSanitize (baseName ext found : Str) : Str × List Msg :=
  let r := found.foldl (replStep baseName) (baseName, [])
  (r.1 ++ ext, if r.2 ≠ [] then [Msg.autoFix r.2] else [])

/-- `sanitize_filename(name, is_dir)` from `validator.py`. -/
def sanitize_filename (name : Str) (is_dir : Bool) : Str × List Msg :=
  if name = [] then (name, [])
  else
    let found := name.filter isIllegal
    if found = [] then (name, [])
    else if !is_dir && ('.' : Char) ∈ name then
      let be := rsplitDot name
      let extIllegal := be.2.filter isIllegal
      if extIllegal ≠ [] then (name, [Msg.errExtIllegal be.2 extIllegal])
      else finishSanitize be.1 be.2 found
    else finishSanitize name [] found

/-! ## validator.py: extension-placement validation -/

/-- The `common_exts` reference table of `validate_extension_position`. -/
def commonExts : List Str :=
  ([".txt", ".json", ".xml", ".html", ".htm", ".css", ".js", ".ts",
    ".py", ".java", ".cpp", ".c", ".h", ".hpp", ".cs", ".go", ".rs",
    ".md", ".yaml", ".yml", ".toml", ".ini", ".cfg", ".conf",
    ".jpg", ".jpeg", ".png", ".gif", ".bmp", ".webp", ".avif", ".svg",
    ".mp3", ".mp4", ".avi", ".mkv", ".mov", ".wav", ".flac",
    ".zip", ".rar", ".7z", ".tar", ".gz", ".bz2",
    ".pdf", ".doc", ".docx", ".xls", ".xlsx", ".ppt", ".pptx",
    ".exe", ".dll", ".so", ".dylib", ".bin",
    ".log", ".bak", ".tmp", ".cache"] : List String).map String.toList

/-- The candidate extension extracted from one dot-separated part:
`"." + part.split(underscore)[0].split(hyphen)[0]`. -/
def potentialExtOf (part : Str) : Str :=
  '.' :: ((splitChar '-' ((splitChar '_' part).headD [])).headD [])

/-- `validate_extension_position(name)` from `validator.py`: flags every
dot-separated part after the first that contains an underscore or hyphen
and whose leading piece matches a known extension. -/
def validate_extension_position (name : Str) : List Msg :=
  if name = [] ∨ ('.' : Char) ∉ name then []
  else
    let parts := splitChar '.' name
    if parts.length < 2 then []
    else
      (parts.drop 1).filterMap (fun part =>
        if ('_' : Char) ∈ part ∨ ('-' : Char) ∈ part then
          let pe := potentialExtOf part
          if (pe.map Char.toLower) ∈ commonExts then
            some (Msg.errExtSuffix name part pe)
          else none
        else none)

/-- `validate_target_name(tgt, src, is_dir)` from `validator.py`. -/
def validate_target_name (tgt src : Str) (is_dir : Bool) : Str × List Msg :=
  if tgt = [] then (tgt, [])
  else
    let s := sanitize_filename tgt is_dir
    if s.2.any Msg.isError then (tgt, s.2)
    else if is_dir then (s.1, s.2)
    else
      let extErrors := validate_extension_position s.1
      let msgs := s.2 ++ extErrors
      if ('.' : Char) ∈ src ∧ ('.' : Char) ∈ s.1 then
        let srcExt := (rsplitDot src).2.map Char.toLower
        let tgtExt := (rsplitDot s.1).2.map Char.toLower
        if srcExt ≠ tgtExt then (s.1, msgs ++ [Msg.warnExtChange srcExt tgtExt])
        else (s.1, msgs)
      else (s.1, msgs)

/-! ## models.py: the rename tree and aggregate counts -/

/-- `FileNode` / `DirNode` from `models.py`, as a sum type; a `RenameJSON`
root is a `List RenameNode`. -/
inductive RenameNode where
  | file (src tgt : Str)
  | dir (src_dir tgt_dir : Str) (children : List RenameNode)

/-- The source name stored at the node itself. -/
def RenameNode.srcName : RenameNode → Str
  | .file s _ => s
  | .dir s _ _ => s

/-- The target name stored at the node itself. -/
def RenameNode.tgtName : RenameNode → Str
  | .file _ t => t
  | .dir _ t _ => t

/-- `is_pending`: the target is empty. -/
def RenameNode.is_pending : RenameNode → Bool
  | .file _ t => t.isEmpty
  | .dir _ t _ => t.isEmpty

/-- `is_ready`: the target is non-empty and differs from the source. -/
def RenameNode.is_ready : RenameNode → Bool
  | .file s t => !t.isEmpty && s != t
  | .dir s t _ => !t.isEmpty && s != t

mutual

/-- `count_total` from `models.py` on one node. -/
def count_total : RenameNode → Nat
  | .file _ _ => 1
  | .dir _ _ cs => 1 + count_total_list cs

/-- `count_total` from `models.py` on a `RenameJSON` root list. -/
def count_total_list : List RenameNode → Nat
  | [] => 0
  | c :: cs => count_total c + count_total_list cs

end

mutual

/-- `count_pending` from `models.py` on one node. -/
def count_pending : RenameNode → Nat
  | .file s t => if (RenameNode.file s t).is_pending then 1 else 0
  | .dir s t cs => (if (RenameNode.dir s t cs).is_pending then 1 else 0) + count_pending_list cs

/-- `count_pending` from `models.py` on a `RenameJSON` root list. -/
def count_pending_list : List RenameNode → Nat
  | [] => 0
  | c :: cs => count_pending c + count_pending_list cs

end

mutual

/-- `count_ready` from `models.py` on one node. -/
def count_ready : RenameNode → Nat
  | .file s t => if (RenameNode.file s t).is_ready then 1 else 0
  | .dir s t cs => (if (RenameNode.dir s t cs).is_ready then 1 else 0) + count_ready_list cs

/-- `count_ready` from `models.py` on a `RenameJSON` root list. -/
def count_ready_list : List RenameNode → Nat
  | [] => 0
  | c :: cs => count_ready c + count_ready_list cs

end

mutual

/-- Count of nodes that are neither pending nor ready (derived predicate:
non-empty target equal to the source), summed like the other counts. -/
def count_neither : RenameNode → Nat
  | .file s t =>
    if !(RenameNode.file s t).is_pending && !(RenameNode.file s t).is_ready then 1 else 0
  | .dir s t cs =>
    (if !(RenameNode.dir s t cs).is_pending && !(RenameNode.dir s t cs).is_ready then 1 else 0)
      + count_neither_list cs

/-- `count_neither` summed over a `RenameJSON` root list. -/
def count_neither_list : List RenameNode → Nat
  | [] => 0
  | c :: cs => count_neither c + count_neither_list cs

end

/-! ## models.py: conflicts; the filesystem model -/

/-- `ConflictType` from `models.py`.  The enum defines exactly these two
members; `ILLEGAL_CHARS` and `INVALID_EXTENSION`, referenced by
`validator.py`, are not among them. -/
inductive ConflictType where
  | target_exists
  | duplicate_target
deriving DecidableEq

/-- The message of a `Conflict`, as a structured value. -/
inductive CMsg where
  | tgtFileExists (p : FsPath)
  | tgtDirExists (p : FsPath)
  | dupTarget (p : FsPath)
  | skipDup (srcName : Str)
deriving DecidableEq

/-- `Conflict` from `models.py`. -/
structure Conflict where
  type : ConflictType
  src_path : FsPath
  tgt_path : FsPath
  message : CMsg
deriving DecidableEq

/-- The filesystem: the set of currently existing paths. -/
abbrev FS := List FsPath

/-- `Path.exists()` against the modelled filesystem. -/
def fsExists (fs : FS) (p : FsPath) : Bool := decide (p ∈ fs)

/-- Whether `a` is an initial segment of `b` (ancestor-or-equal path). -/
def pathAncestor : FsPath → FsPath → Bool
  | [], _ => true
  | _, [] => false
  | x :: xs, y :: ys => x == y && pathAncestor xs ys

/-- `shutil.move(src, tgt)` for a rename: every existing path at or below
`src` is rewritten to live at or below `tgt`. -/
def fsMove (fs : FS) (src tgt : FsPath) : FS :=
  fs.map (fun p => if pathAncestor src p then tgt ++ p.drop src.length else p)

/-! ## validator.py: ConflictValidator.validate -/

/-- The `target_paths` multi-map: target path to contributing source paths,
in Python dict insertion order. -/
abbrev TargetMap := List (FsPath × List FsPath)

/-- `target_paths[tgt_path].append(src_path)` on a `defaultdict(list)`:
append to an existing key in place, else append a fresh key at the end. -/
def tmAdd (m : TargetMap) (tgt src : FsPath) : TargetMap :=
  match m with
  | [] => [(tgt, [src])]
  | (k, v) :: rest =>
    if k = tgt then (k, v ++ [src]) :: rest else (k, v) :: tmAdd rest tgt src

/-- `ConflictValidator._check_target_exists`: the target exists and is not
the source itself. -/
def checkTargetExists (fs : FS) (src_path tgt_path : FsPath) : Bool :=
  if src_path = tgt_path then false else fsExists fs tgt_path

/-- `ConflictValidator._check_duplicate_targets`: one `DuplicateTarget`
conflict per contributing source of every multiply-targeted path. -/
def check_duplicate_targets (tm : TargetMap) : List Conflict :=
  tm.foldr (fun g acc =>
    (if g.2.length > 1 then
      g.2.map (fun s => Conflict.mk .duplicate_target s g.1 (.dupTarget g.1))
    else []) ++ acc) []

/-- The Python `AttributeError` message raised when `_validate_node` asks
the `ConflictType` enum for a member it does not define. -/
def missingAttr (illegalPhrase : Bool) : String :=
  if illegalPhrase then
    "AttributeError: type object ConflictType has no attribute ILLEGAL_CHARS"
  else
    "AttributeError: type object ConflictType has no attribute INVALID_EXTENSION"

mutual

/-- `ConflictValidator._validate_node`.  The conflict list and target map
are threaded as state; constructing a conflict for an `[ERROR]` message
evaluates a missing `ConflictType` attribute, which raises. -/
def validateNode (fs : FS) :
    RenameNode → FsPath → List Conflict × TargetMap →
    Except String (List Conflict × TargetMap)
  | .file src tgt, parent_path, acc =>
    let src_path := pathJoin parent_path src
    if (RenameNode.file src tgt).is_ready then
      let vt := validate_target_name tgt src false
      match vt.2.find? Msg.isError with
      | some m => .error (missingAttr m.mentionsIllegalChars)
      | none =>
        let tgt_path := pathJoin parent_path vt.1
        let conflicts :=
          if checkTargetExists fs src_path tgt_path then
            acc.1 ++ [Conflict.mk .target_exists src_path tgt_path (.tgtFileExists tgt_path)]
          else acc.1
        .ok (conflicts, tmAdd acc.2 tgt_path src_path)
    else .ok acc
  | .dir src_dir tgt_dir children, parent_path, acc =>
    let src_path := pathJoin parent_path src_dir
    let step : Except String (List Conflict × TargetMap) :=
      if (RenameNode.dir src_dir tgt_dir children).is_ready then
        let vt := validate_target_name tgt_dir src_dir true
        match vt.2.find? Msg.isError with
        | some m => .error (missingAttr m.mentionsIllegalChars)
        | none =>
          let tgt_path := pathJoin parent_path vt.1
          let conflicts :=
            if checkTargetExists fs src_path tgt_path then
              acc.1 ++ [Conflict.mk .target_exists src_path tgt_path (.tgtDirExists tgt_path)]
            else acc.1
          .ok (conflicts, tmAdd acc.2 tgt_path src_path)
      else .ok acc
    match step with
    | .error e => .error e
    | .ok acc1 => validateNodeList fs children src_path acc1

/-- `_validate_node` over a child list, left to right. -/
def validateNodeList (fs : FS) :
    List RenameNode → FsPath → List Conflict × TargetMap →
    Except String (List Conflict × TargetMap)
  | [], _, acc => .ok acc
  | n :: rest, parent_path, acc =>
    match validateNode fs n parent_path acc with
    | .error e => .error e
    | .ok acc1 => validateNodeList fs rest parent_path acc1

end

/-- `ConflictValidator.validate(rename_json, base_path)`. -/
def ConflictValidator.validate (tree : List RenameNode) (base_path : FsPath)
    (fs : FS) : Except String (List Conflict) :=
  match validateNodeList fs tree base_path ([], []) with
  | .error e => .error e
  | .ok acc => .ok (acc.1 ++ check_duplicate_targets acc.2)

/-! ## validator.py: smart dedup and get_valid_operations -/

/-- One `dup_by_target[c.tgt_path].append(c)` step on a `defaultdict(list)`.
-/
def gbtAdd (m : List (FsPath × List Conflict)) (c : Conflict) :
    List (FsPath × List Conflict) :=
  match m with
  | [] => [(c.tgt_path, [c])]
  | (k, v) :: rest =>
    if k = c.tgt_path then (k, v ++ [c]) :: rest else (k, v) :: gbtAdd rest c

/-- Grouping of `DuplicateTarget` conflicts by target path
(`defaultdict(list)` in first-encounter order). -/
def groupByTarget (l : List Conflict) : List (FsPath × List Conflict) :=
  l.foldl gbtAdd []

/-- The smart-dedup pass of `get_valid_operations`: within each duplicate
group, sorted by the string form of the source path, the first source is
kept (its conflict removed) and the rest are marked skipped. -/
def smartDedup (conflicts : List Conflict) : List Conflict :=
  let dup_conflicts := conflicts.filter (fun c => c.type == ConflictType.duplicate_target)
  let dup_by_target := groupByTarget dup_conflicts
  let folded := dup_by_target.foldl
    (fun (acc : List (FsPath × FsPath) × List FsPath) g =>
      match sortLe (fun a b => strLe (pathStr a.src_path) (pathStr b.src_path)) g.2 with
      | [] => acc
      | _ :: others =>
        (acc.1 ++ others.map (fun c => (c.src_path, c.tgt_path)), acc.2 ++ [g.1]))
    ([], [])
  let skip_paths := folded.1
  let kept_targets := folded.2
  let remaining := conflicts.filter (fun c =>
    !(c.type == ConflictType.duplicate_target && decide (c.tgt_path ∈ kept_targets)
      && !decide ((c.src_path, c.tgt_path) ∈ skip_paths)))
  remaining.map (fun c =>
    if (c.src_path, c.tgt_path) ∈ skip_paths then
      Conflict.mk c.type c.src_path c.tgt_path (.skipDup (pathName c.src_path))
    else c)

mutual

/-- The inner `collect_operations` closure of `get_valid_operations`:
children first, then the directory itself; a ready node is emitted unless
its `(source, target)` pair is a conflict or its target is already taken. -/
def collectNode (cp : List (FsPath × FsPath)) :
    RenameNode → FsPath → List (FsPath × FsPath) × List FsPath →
    List (FsPath × FsPath) × List FsPath
  | .file src tgt, parent_path, st =>
    if (RenameNode.file src tgt).is_ready then
      let s := pathJoin parent_path src
      let t := pathJoin parent_path tgt
      if (s, t) ∉ cp ∧ t ∉ st.2 then (st.1 ++ [(s, t)], st.2 ++ [t]) else st
    else st
  | .dir src_dir tgt_dir children, parent_path, st =>
    let src_path := pathJoin parent_path src_dir
    let st1 := collectNodeList cp children src_path st
    if (RenameNode.dir src_dir tgt_dir children).is_ready then
      let t := pathJoin parent_path tgt_dir
      if (src_path, t) ∉ cp ∧ t ∉ st1.2 then (st1.1 ++ [(src_path, t)], st1.2 ++ [t])
      else st1
    else st1

/-- `collect_operations` over a node list, left to right. -/
def collectNodeList (cp : List (FsPath × FsPath)) :
    List RenameNode → FsPath → List (FsPath × FsPath) × List FsPath →
    List (FsPath × FsPath) × List FsPath
  | [], _, st => st
  | n :: rest, parent_path, st =>
    collectNodeList cp rest parent_path (collectNode cp n parent_path st)

end

/-- `ConflictValidator.get_valid_operations(rename_json, base_path,
smart_dedup)`: the deduplicated conflict list and the ordered operation
list. -/
def ConflictValidator.get_valid_operations (tree : List RenameNode)
    (base_path : FsPath) (fs : FS) (smart_dedup : Bool) :
    Except String (List (FsPath × FsPath) × List Conflict) :=
  match ConflictValidator.validate tree base_path fs with
  | .error e => .error e
  | .ok conflicts0 =>
    let conflicts := if smart_dedup then smartDedup conflicts0 else conflicts0
    let conflict_paths := conflicts.map (fun c => (c.src_path, c.tgt_path))
    let st := collectNodeList conflict_paths tree base_path ([], [])
    .ok (st.1, conflicts)

/-! ## undo.py: the undo ledger -/

/-- A stored batch: `undo_batches` row plus its `undo_operations` rows,
`ops` in `seq_order` (execution order), each `(original_path, new_path)`. -/
structure UndoBatch where
  id : String
  undone : Bool
  ops : List (FsPath × FsPath)
deriving DecidableEq

/-- The ledger: stored batches in insertion order. -/
abbrev Ledger := List UndoBatch

/-- A per-item or whole-batch failure reason of an undo. -/
inductive UndoErr where
  | notFound (id : String)
  | alreadyUndone (id : String)
  | missing (p : FsPath)
deriving DecidableEq

/-- `UndoResult` from `models.py`. -/
structure UndoResult where
  success_count : Nat
  failed_count : Nat
  failed_items : List (FsPath × FsPath × UndoErr)
deriving DecidableEq

/-- `SELECT ... FROM undo_batches WHERE id = ?` (ids are unique keys). -/
def batchById (led : Ledger) (i : String) : Option UndoBatch :=
  led.find? (fun b => b.id == i)

/-- `UPDATE undo_batches SET undone = 1 WHERE id = ?`. -/
def markUndone (led : Ledger) (i : String) : Ledger :=
  led.map (fun b => if b.id == i then UndoBatch.mk b.id true b.ops else b)

/-- `UndoManager.record(operations, description)`: empty input records
nothing and returns the empty id; otherwise the batch is appended under a
fresh id (`uuid` modelled by the caller-supplied `freshId`). -/
def UndoManager.record (led : Ledger) (operations : List (FsPath × FsPath))
    (freshId : String) : Ledger × String :=
  if operations.isEmpty then (led, "")
  else (led ++ [UndoBatch.mk freshId false operations], freshId)

/-- The state after replaying a tail of undo operations: the filesystem,
the success and failure counts, the failure items in encounter order, and
the trace of the moves actually performed, in order. -/
structure UndoStep where
  fs : FS
  succ : Nat
  failed : Nat
  items : List (FsPath × FsPath × UndoErr)
  trace : List (FsPath × FsPath)
deriving DecidableEq

/-- The undo loop of `UndoManager.undo` over the already-reversed operation
list: move `new_path` back to `original_path` when `new_path` exists,
otherwise count a per-item failure and continue. -/
def runUndoOps (fs : FS) : List (FsPath × FsPath) → UndoStep
  | [] => UndoStep.mk fs 0 0 [] []
  | (original_path, new_path) :: rest =>
    if fsExists fs new_path then
      let r := runUndoOps (fsMove fs new_path original_path) rest
      UndoStep.mk r.fs (r.succ + 1) r.failed r.items ((new_path, original_path) :: r.trace)
    else
      let r := runUndoOps fs rest
      UndoStep.mk r.fs r.succ (r.failed + 1)
        ((original_path, new_path, .missing new_path) :: r.items) r.trace

/-- The full outcome of `UndoManager.undo`: the ledger and filesystem after
the call, the returned result, and the trace of performed moves. -/
structure UndoOut where
  ledger : Ledger
  fs : FS
  result : UndoResult
  trace : List (FsPath × FsPath)
deriving DecidableEq

/-- `UndoManager.undo(batch_id)`: a descriptive zero-success result when the
batch is unknown or already undone; otherwise the operations are replayed
in reverse `seq_order` and the batch is marked undone unconditionally. -/
def UndoManager.undo (led : Ledger) (fs : FS) (batch_id : String) : UndoOut :=
  match batchById led batch_id with
  | none =>
    UndoOut.mk led fs (UndoResult.mk 0 0 [([], [], .notFound batch_id)]) []
  | some b =>
    if b.undone then
      UndoOut.mk led fs (UndoResult.mk 0 0 [([], [], .alreadyUndone batch_id)]) []
    else
      let r := runUndoOps fs b.ops.reverse
      UndoOut.mk (markUndone led batch_id) r.fs (UndoResult.mk r.succ r.failed r.items) r.trace

/-! ## renamer.py: FileRenamer -/

/-- `RenameResult` from `models.py`. -/
structure RenameResult where
  success_count : Nat
  failed_count : Nat
  skipped_count : Nat
  conflicts : List Conflict
  operation_id : String
deriving DecidableEq

/-- `FileRenamer._rename_single`: fail when the source no longer exists or
the target already exists; otherwise move.  Returns the success flag and
the filesystem after the attempt. -/
def FileRenamer.rename_single (fs : FS) (src tgt : FsPath) : Bool × FS :=
  if !fsExists fs src then (false, fs)
  else if fsExists fs tgt then (false, fs)
  else (true, fsMove fs src tgt)

/-- The accumulator of the execution loop of `rename_batch`. -/
structure ExecState where
  fs : FS
  succ : Nat
  failed : Nat
  executed : List (FsPath × FsPath)
deriving DecidableEq

/-- One iteration of the execution loop of `rename_batch`. -/
def execStep (acc : ExecState) (op : FsPath × FsPath) : ExecState :=
  let r := FileRenamer.rename_single acc.fs op.1 op.2
  if r.1 then ExecState.mk r.2 (acc.succ + 1) acc.failed (acc.executed ++ [op])
  else ExecState.mk acc.fs acc.succ (acc.failed + 1) acc.executed

/-- `FileRenamer.rename_batch(rename_json, base_path, dry_run)` with an
attached undo manager; `freshId` models the uuid drawn when a batch is
recorded.  Returns the result together with the filesystem and ledger
after the call. -/
def FileRenamer.rename_batch (tree : List RenameNode) (base_path : FsPath)
    (fs : FS) (led : Ledger) (dry_run : Bool) (freshId : String) :
    Except String (RenameResult × FS × Ledger) :=
  match ConflictValidator.get_valid_operations tree base_path fs true with
  | .error e => .error e
  | .ok (operations, conflicts) =>
    if dry_run then
      .ok (RenameResult.mk operations.length 0 conflicts.length conflicts "", fs, led)
    else
      let st := operations.foldl execStep (ExecState.mk fs 0 0 [])
      let rec1 :=
        if !st.executed.isEmpty then UndoManager.record led st.executed freshId
        else (led, "")
      .ok (RenameResult.mk st.succ st.failed conflicts.length conflicts rec1.2, st.fs, rec1.1)

/-! ## Proof-support definitions -/

/-- Invariant of the operation-collection state: every emitted operation's
target is among the claimed targets, and emitted targets are pairwise
distinct. -/
def OpsInv (st : List (FsPath × FsPath) × List FsPath) : Prop :=
  (∀ p ∈ st.1, p.2 ∈ st.2) ∧ st.1.Pairwise (fun a b => a.2 ≠ b.2)

/-- Replay a trace of moves against the filesystem. -/
def applyTrace (fs : FS) (tr : List (FsPath × FsPath)) : FS :=
  tr.foldl (fun f m => fsMove f m.1 m.2) fs

/-- A trace of moves is valid for a filesystem when each moved source
exists at the moment that move is performed. -/
def validTrace : FS → List (FsPath × FsPath) → Prop
  | _, [] => True
  | fs, (n, o) :: rest => fsExists fs n = true ∧ validTrace (fsMove fs n o) rest

/-! ## Theorems -/

mutual

/-- The per-node total count splits into pending, ready and neither. -/
theorem counts_node : ∀ n : RenameNode,
    count_total n = count_pending n + count_ready n + count_neither n
  | .file s t => by
    simp only [count_total, count_pending, count_ready, count_neither,
      RenameNode.is_pending, RenameNode.is_ready]
    by_cases h1 : t.isEmpty = true <;> by_cases h2 : s = t <;>
      simp [h1, h2, Bool.not_eq_true]
  | .dir s t cs => by
    have h := counts_list cs
    simp only [count_total, count_pending, count_ready, count_neither,
      RenameNode.is_pending, RenameNode.is_ready]
    by_cases h1 : t.isEmpty = true <;> by_cases h2 : s = t <;>
      simp [h1, h2, Bool.not_eq_true] <;> omega

/-- The list total count splits into pending, ready and neither. -/
theorem counts_list : ∀ l : List RenameNode,
    count_total_list l = count_pending_list l + count_ready_list l + count_neither_list l
  | [] => by
    simp [count_total_list, count_pending_list, count_ready_list, count_neither_list]
  | c :: cs => by
    have h1 := counts_node c
    have h2 := counts_list cs
    simp only [count_total_list, count_pending_list, count_ready_list, count_neither_list]
    omega

end

/-- C9: for every tree (forest), the total node count equals the pending
count plus the ready count plus the count of nodes that are neither, each
count the recursive sum over the whole forest; per node the three states
are mutually exclusive and the neither state is exactly a non-empty target
equal to the source. -/
theorem count_partition :
    (∀ tree : List RenameNode,
      count_total_list tree =
        count_pending_list tree + count_ready_list tree + count_neither_list tree)
    ∧ (∀ n : RenameNode,
        (¬(n.is_pending = true ∧ n.is_ready = true))
        ∧ ((n.is_pending = false ∧ n.is_ready = false) ↔
            (n.tgtName ≠ [] ∧ n.tgtName = n.srcName))) := by
  constructor
  · exact counts_list
  · intro n
    cases n with
    | file s t =>
      simp only [RenameNode.is_pending, RenameNode.is_ready, RenameNode.tgtName,
        RenameNode.srcName]
      cases h1 : t.isEmpty <;> cases h2 : s == t <;>
        simp_all [List.isEmpty_iff, beq_iff_eq] <;> aesop
    | dir s t cs =>
      simp only [RenameNode.is_pending, RenameNode.is_ready, RenameNode.tgtName,
        RenameNode.srcName]
      cases h1 : t.isEmpty <;> cases h2 : s == t <;>
        simp_all [List.isEmpty_iff, beq_iff_eq] <;> aesop

/-- C3: for the two-file tree a.txt→b.txt, c.txt→b.txt with no pre-existing
target, validate yields exactly two DuplicateTarget conflicts (one per
contributing source), and smart dedup keeps exactly one operation, the
lexicographically smallest source a.txt, removing its conflict, while the
other source stays as a conflict with its message rewritten to skipped. -/
theorem duplicate_target_smart_dedup_scenario :
    ConflictValidator.validate
      [.file "a.txt".toList "b.txt".toList, .file "c.txt".toList "b.txt".toList] []
      [["a.txt".toList], ["c.txt".toList]] =
      .ok [Conflict.mk .duplicate_target ["a.txt".toList] ["b.txt".toList]
             (.dupTarget ["b.txt".toList]),
           Conflict.mk .duplicate_target ["c.txt".toList] ["b.txt".toList]
             (.dupTarget ["b.txt".toList])]
    ∧ ConflictValidator.get_valid_operations
      [.file "a.txt".toList "b.txt".toList, .file "c.txt".toList "b.txt".toList] []
      [["a.txt".toList], ["c.txt".toList]] true =
      .ok ([(["a.txt".toList], ["b.txt".toList])],
           [Conflict.mk .duplicate_target ["c.txt".toList] ["b.txt".toList]
             (.skipDup "c.txt".toList)]) :=
  ⟨rfl, rfl⟩

/-- C5 (code bug): on the target name notes.txt_old, the extension-placement
check produces an `[ERROR]` message, and `_validate_node` then evaluates
`ConflictType.INVALID_EXTENSION`, a member the enum in `models.py` does not
define: the call raises `AttributeError` instead of returning the conflict
as data, and `get_valid_operations` raises identically instead of returning
an operation list. -/
theorem extension_conflict_attribute_error :
    ConflictValidator.validate
      [.file "notes.txt".toList "notes.txt_old".toList] [] [["notes.txt".toList]] =
      .error (missingAttr false)
    ∧ ConflictValidator.get_valid_operations
      [.file "notes.txt".toList "notes.txt_old".toList] [] [["notes.txt".toList]] true =
      .error (missingAttr false)
    ∧ (validate_target_name "notes.txt_old".toList "notes.txt".toList false).2.any
        Msg.isError = true :=
  ⟨rfl, rfl, rfl⟩

/-- Appending an operation with an unclaimed target preserves the
operation-list invariant. -/
theorem opsInv_push (st : List (FsPath × FsPath) × List FsPath)
    (s t : FsPath) (ht : t ∉ st.2) (h : OpsInv st) :
    OpsInv (st.1 ++ [(s, t)], st.2 ++ [t]) := by
  obtain ⟨hmem, hpw⟩ := h
  constructor
  · intro p hp
    rcases List.mem_append.mp hp with hp1 | hp2
    · exact List.mem_append.mpr (Or.inl (hmem p hp1))
    · simp only [List.mem_singleton] at hp2
      subst hp2
      simp
  · rw [List.pairwise_append]
    refine ⟨hpw, by simp, ?_⟩
    intro a ha b hb
    simp only [List.mem_singleton] at hb
    subst hb
    intro heq
    apply ht
    have hmem2 := hmem a ha
    rw [heq] at hmem2
    simpa using hmem2

mutual

/-- One collection step preserves the operation-list invariant. -/
theorem collectNode_inv (cp : List (FsPath × FsPath)) :
    ∀ (n : RenameNode) (parent : FsPath) (st : List (FsPath × FsPath) × List FsPath),
      OpsInv st → OpsInv (collectNode cp n parent st)
  | .file src tgt, parent, st => by
    intro h
    by_cases hr : (RenameNode.file src tgt).is_ready = true
    · by_cases hc : ((pathJoin parent src, pathJoin parent tgt) ∉ cp
          ∧ pathJoin parent tgt ∉ st.2)
      · have hstep : collectNode cp (.file src tgt) parent st =
            (st.1 ++ [(pathJoin parent src, pathJoin parent tgt)],
             st.2 ++ [pathJoin parent tgt]) := by
          simp [collectNode, hr, hc]
        rw [hstep]
        exact opsInv_push st (pathJoin parent src) (pathJoin parent tgt) hc.2 h
      · simpa [collectNode, hr, hc] using h
    · simpa [collectNode, hr] using h
  | .dir src_dir tgt_dir children, parent, st => by
    intro h
    have h1 := collectNodeList_inv cp children (pathJoin parent src_dir) st h
    by_cases hr : (RenameNode.dir src_dir tgt_dir children).is_ready = true
    · by_cases hc : ((pathJoin parent src_dir, pathJoin parent tgt_dir) ∉ cp
          ∧ pathJoin parent tgt_dir ∉ (collectNodeList cp children (pathJoin parent src_dir) st).2)
      · have hstep : collectNode cp (.dir src_dir tgt_dir children) parent st =
            ((collectNodeList cp children (pathJoin parent src_dir) st).1 ++
               [(pathJoin parent src_dir, pathJoin parent tgt_dir)],
             (collectNodeList cp children (pathJoin parent src_dir) st).2 ++
               [pathJoin parent tgt_dir]) := by
          simp [collectNode, hr, hc]
        rw [hstep]
        exact opsInv_push _ (pathJoin parent src_dir) (pathJoin parent tgt_dir) hc.2 h1
      · simpa [collectNode, hr, hc] using h1
    · simpa [collectNode, hr] using h1

/-- Collection over a node list preserves the operation-list invariant. -/
theorem collectNodeList_inv (cp : List (FsPath × FsPath)) :
    ∀ (l : List RenameNode) (parent : FsPath) (st : List (FsPath × FsPath) × List FsPath),
      OpsInv st → OpsInv (collectNodeList cp l parent st)
  | [], _, st => by
    intro h
    simpa [collectNodeList] using h
  | n :: rest, parent, st => by
    intro h
    have h1 := collectNode_inv cp n parent st h
    have h2 := collectNodeList_inv cp rest parent (collectNode cp n parent st) h1
    simpa [collectNodeList] using h2

end

/-- C1: for every tree, base path, filesystem and dedup flag, whenever
`get_valid_operations` returns an operation list, no two operations in it
share a target path. -/
theorem get_valid_operations_no_duplicate_targets
    (tree : List RenameNode) (base_path : FsPath) (fs : FS) (smart_dedup : Bool)
    (ops : List (FsPath × FsPath)) (conflicts : List Conflict)
    (h : ConflictValidator.get_valid_operations tree base_path fs smart_dedup =
      .ok (ops, conflicts)) :
    ops.Pairwise (fun a b => a.2 ≠ b.2) := by
  unfold ConflictValidator.get_valid_operations at h
  cases hv : ConflictValidator.validate tree base_path fs with
  | error e =>
    rw [hv] at h
    simp at h
  | ok c0 =>
    rw [hv] at h
    simp only [Except.ok.injEq, Prod.mk.injEq] at h
    obtain ⟨h1, _⟩ := h
    have hinv := collectNodeList_inv
      ((if smart_dedup then smartDedup c0 else c0).map
        (fun c => (c.src_path, c.tgt_path)))
      tree base_path ([], []) ⟨by simp, by simp⟩
    rw [← h1]
    exact hinv.2

/-- C1 witness: the theorem applied at a concrete tree and filesystem. -/
theorem get_valid_operations_no_duplicate_targets_witness :
    ConflictValidator.get_valid_operations
      [.file "a.txt".toList "b.txt".toList, .file "c.txt".toList "b.txt".toList] []
      [["a.txt".toList], ["c.txt".toList]] true =
      .ok ([(["a.txt".toList], ["b.txt".toList])],
           [Conflict.mk .duplicate_target ["c.txt".toList] ["b.txt".toList]
             (.skipDup "c.txt".toList)])
    ∧ ([(["a.txt".toList], ["b.txt".toList])] :
        List (FsPath × FsPath)).Pairwise (fun a b => a.2 ≠ b.2) :=
  ⟨rfl, get_valid_operations_no_duplicate_targets
    [.file "a.txt".toList "b.txt".toList, .file "c.txt".toList "b.txt".toList] []
    [["a.txt".toList], ["c.txt".toList]] true
    [(["a.txt".toList], ["b.txt".toList])]
    [Conflict.mk .duplicate_target ["c.txt".toList] ["b.txt".toList]
      (.skipDup "c.txt".toList)] rfl⟩

mutual

/-- One collection step only appends to the operation and claimed lists. -/
theorem collectNode_extends (cp : List (FsPath × FsPath)) :
    ∀ (n : RenameNode) (parent : FsPath) (st : List (FsPath × FsPath) × List FsPath),
      ∃ d1 d2, collectNode cp n parent st = (st.1 ++ d1, st.2 ++ d2)
  | .file src tgt, parent, st => by
    by_cases hr : (RenameNode.file src tgt).is_ready = true
    · by_cases hc : ((pathJoin parent src, pathJoin parent tgt) ∉ cp
          ∧ pathJoin parent tgt ∉ st.2)
      · exact ⟨[(pathJoin parent src, pathJoin parent tgt)], [pathJoin parent tgt],
          by simp [collectNode, hr, hc]⟩
      · exact ⟨[], [], by simp [collectNode, hr, hc]⟩
    · exact ⟨[], [], by simp [collectNode, hr]⟩
  | .dir src_dir tgt_dir children, parent, st => by
    obtain ⟨a, b, hab⟩ := collectNodeList_extends cp children (pathJoin parent src_dir) st
    by_cases hr : (RenameNode.dir src_dir tgt_dir children).is_ready = true
    · by_cases hc : ((pathJoin parent src_dir, pathJoin parent tgt_dir) ∉ cp
          ∧ pathJoin parent tgt_dir ∉ (collectNodeList cp children (pathJoin parent src_dir) st).2)
      · refine ⟨a ++ [(pathJoin parent src_dir, pathJoin parent tgt_dir)],
          b ++ [pathJoin parent tgt_dir], ?_⟩
        have hstep : collectNode cp (.dir src_dir tgt_dir children) parent st =
            ((collectNodeList cp children (pathJoin parent src_dir) st).1 ++
               [(pathJoin parent src_dir, pathJoin parent tgt_dir)],
             (collectNodeList cp children (pathJoin parent src_dir) st).2 ++
               [pathJoin parent tgt_dir]) := by
          simp [collectNode, hr, hc]
        rw [hstep, hab]
        simp [List.append_assoc]
      · have hstep : collectNode cp (.dir src_dir tgt_dir children) parent st =
            collectNodeList cp children (pathJoin parent src_dir) st := by
          simp [collectNode, hr, hc]
        exact ⟨a, b, by rw [hstep, hab]⟩
    · have hstep : collectNode cp (.dir src_dir tgt_dir children) parent st =
          collectNodeList cp children (pathJoin parent src_dir) st := by
        simp [collectNode, hr]
      exact ⟨a, b, by rw [hstep, hab]⟩

/-- Collection over a node list only appends to the state. -/
theorem collectNodeList_extends (cp : List (FsPath × FsPath)) :
    ∀ (l : List RenameNode) (parent : FsPath) (st : List (FsPath × FsPath) × List FsPath),
      ∃ d1 d2, collectNodeList cp l parent st = (st.1 ++ d1, st.2 ++ d2)
  | [], _, st => ⟨[], [], by simp [collectNodeList]⟩
  | n :: rest, parent, st => by
    obtain ⟨a, b, h1⟩ := collectNode_extends cp n parent st
    obtain ⟨c, d, h2⟩ := collectNodeList_extends cp rest parent (collectNode cp n parent st)
    refine ⟨a ++ c, b ++ d, ?_⟩
    have hu : collectNodeList cp (n :: rest) parent st =
        collectNodeList cp rest parent (collectNode cp n parent st) := by
      simp [collectNodeList]
    rw [hu, h2, h1, List.append_assoc, List.append_assoc]

end

/-- C2: the operations contributed by a directory node are exactly its
children's contributions followed by at most the directory's own rename, so
ready descendants always precede their parent directory in the operation
list; in particular the scenario dir old→new containing x.txt→y.txt, with
neither target present, yields exactly the two operations child-first. -/
theorem children_precede_parent_dir :
    (∀ (cp : List (FsPath × FsPath)) (src_dir tgt_dir : Str)
       (children : List RenameNode) (parent : FsPath)
       (st : List (FsPath × FsPath) × List FsPath),
      ∃ childOps childSeen selfOps,
        collectNodeList cp children (pathJoin parent src_dir) st =
          (st.1 ++ childOps, st.2 ++ childSeen)
        ∧ (collectNode cp (.dir src_dir tgt_dir children) parent st).1 =
            st.1 ++ childOps ++ selfOps
        ∧ (selfOps = [] ∨
            selfOps = [(pathJoin parent src_dir, pathJoin parent tgt_dir)]))
    ∧ ConflictValidator.get_valid_operations
        [.dir "old".toList "new".toList [.file "x.txt".toList "y.txt".toList]] []
        [["old".toList], ["old".toList, "x.txt".toList]] true =
      .ok ([(["old".toList, "x.txt".toList], ["old".toList, "y.txt".toList]),
            (["old".toList], ["new".toList])], []) := by
  constructor
  · intro cp src_dir tgt_dir children parent st
    obtain ⟨a, b, hab⟩ := collectNodeList_extends cp children (pathJoin parent src_dir) st
    by_cases hr : (RenameNode.dir src_dir tgt_dir children).is_ready = true
    · by_cases hc : ((pathJoin parent src_dir, pathJoin parent tgt_dir) ∉ cp
          ∧ pathJoin parent tgt_dir ∉ (collectNodeList cp children (pathJoin parent src_dir) st).2)
      · refine ⟨a, b, [(pathJoin parent src_dir, pathJoin parent tgt_dir)], hab, ?_, Or.inr rfl⟩
        have hstep : collectNode cp (.dir src_dir tgt_dir children) parent st =
            ((collectNodeList cp children (pathJoin parent src_dir) st).1 ++
               [(pathJoin parent src_dir, pathJoin parent tgt_dir)],
             (collectNodeList cp children (pathJoin parent src_dir) st).2 ++
               [pathJoin parent tgt_dir]) := by
          simp [collectNode, hr, hc]
        rw [hstep, hab]
      · have hstep : collectNode cp (.dir src_dir tgt_dir children) parent st =
            collectNodeList cp children (pathJoin parent src_dir) st := by
          simp [collectNode, hr, hc]
        refine ⟨a, b, [], hab, ?_, Or.inl rfl⟩
        rw [hstep, hab]
        simp
    · have hstep : collectNode cp (.dir src_dir tgt_dir children) parent st =
          collectNodeList cp children (pathJoin parent src_dir) st := by
        simp [collectNode, hr]
      refine ⟨a, b, [], hab, ?_, Or.inl rfl⟩
      rw [hstep, hab]
      simp
  · rfl

/-- C4 counterexample: for the ready file node report.txt→report&lt;final&gt;.txt
on a filesystem where the sanitized target does not exist, sanitization
yields report＜final＞.txt with an auto-fix note and validation reports no
conflict, but the operation emitted by `get_valid_operations` resolves its
target with the raw name report&lt;final&gt;.txt, which differs from the
sanitized name — contradicting the claim that the sanitized name is used
for the emitted operation. -/
theorem sanitized_target_counterexample :
    (sanitize_filename "report<final>.txt".toList false).1 =
      "report＜final＞.txt".toList
    ∧ (sanitize_filename "report<final>.txt".toList false).2 =
      [Msg.autoFix [('<', '＜'), ('>', '＞')]]
    ∧ ConflictValidator.get_valid_operations
        [.file "report.txt".toList "report<final>.txt".toList] []
        [["report.txt".toList]] true =
      .ok ([(["report.txt".toList], ["report<final>.txt".toList])], [])
    ∧ ("report<final>.txt".toList ≠ "report＜final＞.txt".toList) := by
  refine ⟨rfl, rfl, rfl, ?_⟩
  decide

/-- C4 (amended): for every ready file node whose target name produces no
error message in validation, `validate` resolves the target path for the
TargetExists check with the sanitized name, while the operation emitted by
`get_valid_operations` (when the sanitized target is absent from the
filesystem) resolves its target path with the raw, unsanitized name. -/
theorem sanitized_check_raw_operation (src tgt : Str) (parent : FsPath) (fs : FS)
    (hready : (RenameNode.file src tgt).is_ready = true)
    (hnoerr : (validate_target_name tgt src false).2.find? Msg.isError = none) :
    ConflictValidator.validate [.file src tgt] parent fs =
      .ok (if checkTargetExists fs (pathJoin parent src)
              (pathJoin parent (validate_target_name tgt src false).1) then
            [Conflict.mk .target_exists (pathJoin parent src)
              (pathJoin parent (validate_target_name tgt src false).1)
              (.tgtFileExists (pathJoin parent (validate_target_name tgt src false).1))]
          else [])
    ∧ (fsExists fs (pathJoin parent (validate_target_name tgt src false).1) = false →
        ConflictValidator.get_valid_operations [.file src tgt] parent fs true =
          .ok ([(pathJoin parent src, pathJoin parent tgt)], [])) := by
  constructor
  · by_cases hex : checkTargetExists fs (pathJoin parent src)
        (pathJoin parent (validate_target_name tgt src false).1) = true
    · simp [ConflictValidator.validate, validateNodeList, validateNode, hready,
        hnoerr, hex, check_duplicate_targets, tmAdd]
    · simp only [Bool.not_eq_true] at hex
      simp [ConflictValidator.validate, validateNodeList, validateNode, hready,
        hnoerr, hex, check_duplicate_targets, tmAdd]
  · intro hfree
    have hcte : checkTargetExists fs (pathJoin parent src)
        (pathJoin parent (validate_target_name tgt src false).1) = false := by
      simp [checkTargetExists, hfree]
    have hval : ConflictValidator.validate [.file src tgt] parent fs = .ok [] := by
      simp [ConflictValidator.validate, validateNodeList, validateNode, hready,
        hnoerr, hcte, check_duplicate_targets, tmAdd]
    unfold ConflictValidator.get_valid_operations
    rw [hval]
    have hdedup : smartDedup [] = [] := rfl
    simp [hdedup, collectNodeList, collectNode, hready]

/-- C4 witness: the amended theorem applied at the report&lt;final&gt;.txt
scenario. -/
theorem sanitized_check_raw_operation_witness :
    ((RenameNode.file "report.txt".toList "report<final>.txt".toList).is_ready = true)
    ∧ ((validate_target_name "report<final>.txt".toList "report.txt".toList
        false).2.find? Msg.isError = none)
    ∧ (ConflictValidator.validate
        [.file "report.txt".toList "report<final>.txt".toList] [] [["report.txt".toList]] =
        .ok (if checkTargetExists [["report.txt".toList]] (pathJoin [] "report.txt".toList)
                (pathJoin [] (validate_target_name "report<final>.txt".toList
                  "report.txt".toList false).1) then
              [Conflict.mk .target_exists (pathJoin [] "report.txt".toList)
                (pathJoin [] (validate_target_name "report<final>.txt".toList
                  "report.txt".toList false).1)
                (.tgtFileExists (pathJoin [] (validate_target_name
                  "report<final>.txt".toList "report.txt".toList false).1))]
            else [])
      ∧ (fsExists [["report.txt".toList]]
            (pathJoin [] (validate_target_name "report<final>.txt".toList
              "report.txt".toList false).1) = false →
          ConflictValidator.get_valid_operations
            [.file "report.txt".toList "report<final>.txt".toList] []
            [["report.txt".toList]] true =
            .ok ([(pathJoin [] "report.txt".toList,
                   pathJoin [] "report<final>.txt".toList)], []))) :=
  ⟨rfl, rfl, sanitized_check_raw_operation "report.txt".toList
    "report<final>.txt".toList [] [["report.txt".toList]] rfl rfl⟩

/-- Every replacement character of the map is itself legal. -/
theorem replOf_not_illegal (c : Char) : isIllegal (replOf c) = false := by
  unfold replOf
  repeat' split
  all_goals decide

/-- The base/extension split reassembles to the original name. -/
theorem rsplitDot_append (s : Str) : (rsplitDot s).1 ++ (rsplitDot s).2 = s := by
  induction s with
  | nil => rfl
  | cons c rest ih =>
    by_cases h : ('.' : Char) ∈ rest
    · simp [rsplitDot, h, ih]
    · by_cases h2 : c = '.'
      · simp [rsplitDot, h, h2]
      · simp [rsplitDot, h, h2]

/-- After the replacement fold, no illegal character remains, provided
every illegal character of the accumulated base occurs in the pending
found list and in the original base. -/
theorem replFold_no_illegal : ∀ (found origBase : Str) (acc : Str × List (Char × Char)),
    (∀ c, c ∈ acc.1 → isIllegal c = true → (c ∈ found ∧ c ∈ origBase)) →
    ∀ c, c ∈ (found.foldl (replStep origBase) acc).1 → isIllegal c = false := by
  intro found
  induction found with
  | nil =>
    intro origBase acc hinv c hc
    simp only [List.foldl_nil] at hc
    by_cases hi : isIllegal c = true
    · exact absurd (hinv c hc hi).1 (List.not_mem_nil c)
    · simpa using hi
  | cons f rest ih =>
    intro origBase acc hinv
    simp only [List.foldl_cons]
    apply ih
    intro c hc hi
    unfold replStep at hc
    by_cases hf : f ∈ origBase
    · rw [if_pos hf] at hc
      obtain ⟨x, hx, hxc⟩ := List.mem_map.mp hc
      by_cases hxf : x = f
      · exfalso
        rw [hxf, if_pos rfl] at hxc
        rw [← hxc, replOf_not_illegal] at hi
        exact Bool.false_ne_true hi
      · rw [if_neg hxf] at hxc
        subst hxc
        have h3 := hinv x hx hi
        refine ⟨?_, h3.2⟩
        cases List.mem_cons.mp h3.1 with
        | inl h5 => exact absurd h5 hxf
        | inr h5 => exact h5
    · rw [if_neg hf] at hc
      have h3 := hinv c hc hi
      refine ⟨?_, h3.2⟩
      cases List.mem_cons.mp h3.1 with
      | inl h5 => exact absurd (h5 ▸ h3.2) hf
      | inr h5 => exact h5

/-- A name without illegal characters passes sanitization unchanged. -/
theorem sanitize_of_clean (s : Str) (d : Bool) (h : s.filter isIllegal = []) :
    sanitize_filename s d = (s, []) := by
  unfold sanitize_filename
  by_cases h0 : s = []
  · simp [h0]
  · simp [h0, h]

/-- The reassembled sanitized name carries no illegal character, provided
every illegal character of the base occurs in the found list and the
extension is clean. -/
theorem finish_no_illegal (baseName ext found : Str)
    (hbase : ∀ c, c ∈ baseName → isIllegal c = true → c ∈ found)
    (hext : ext.filter isIllegal = []) :
    (finishSanitize baseName ext found).1.filter isIllegal = [] := by
  unfold finishSanitize
  simp only [List.filter_append]
  have h1 : ((found.foldl (replStep baseName) (baseName, [])).1.filter isIllegal) = [] := by
    rw [List.filter_eq_nil_iff]
    intro a ha
    have h2 := replFold_no_illegal found baseName (baseName, [])
      (fun c hc hi => ⟨hbase c hc hi, hc⟩) a ha
    simp [h2]
  simp [h1, hext]

/-- C10: `sanitize_filename` is idempotent — applying it to its own output
returns that output unchanged, for every name and directory flag. -/
theorem sanitize_filename_idempotent (name : Str) (is_dir : Bool) :
    (sanitize_filename (sanitize_filename name is_dir).1 is_dir).1 =
      (sanitize_filename name is_dir).1 := by
  by_cases h0 : name = []
  · subst h0
    rfl
  by_cases h1 : name.filter isIllegal = []
  · rw [sanitize_of_clean name is_dir h1]
    rw [sanitize_of_clean name is_dir h1]
  by_cases hcond : (!is_dir && decide (('.' : Char) ∈ name)) = true
  · by_cases hext : (rsplitDot name).2.filter isIllegal = []
    · have hfst : (sanitize_filename name is_dir).1 =
          (finishSanitize (rsplitDot name).1 (rsplitDot name).2
            (name.filter isIllegal)).1 := by
        unfold sanitize_filename
        simp [h0, h1, hcond, hext]
      have hclean : (finishSanitize (rsplitDot name).1 (rsplitDot name).2
          (name.filter isIllegal)).1.filter isIllegal = [] := by
        apply finish_no_illegal _ _ _ ?_ hext
        intro c hc hi
        have hcname : c ∈ name := by
          rw [← rsplitDot_append name]
          exact List.mem_append.mpr (Or.inl hc)
        exact List.mem_filter.mpr ⟨hcname, hi⟩
      rw [hfst, sanitize_of_clean _ is_dir hclean]
    · have hfst : (sanitize_filename name is_dir).1 = name := by
        unfold sanitize_filename
        simp [h0, h1, hcond, hext]
      rw [hfst, hfst]
  · have hfst : (sanitize_filename name is_dir).1 =
        (finishSanitize name [] (name.filter isIllegal)).1 := by
      unfold sanitize_filename
      simp [h0, h1, hcond]
    have hclean : (finishSanitize name [] (name.filter isIllegal)).1.filter
        isIllegal = [] :=
      finish_no_illegal name [] (name.filter isIllegal)
        (fun c hc hi => List.mem_filter.mpr ⟨hc, hi⟩) (by simp)
    rw [hfst, sanitize_of_clean _ is_dir hclean]

/-- The undo loop accounts for every operation, performs its moves in
encounter order as a sublist of the requested list, only moves paths that
exist at their turn, and changes the filesystem exactly by those moves. -/
theorem runUndoOps_spec : ∀ (l : List (FsPath × FsPath)) (fs : FS),
    (runUndoOps fs l).succ = (runUndoOps fs l).trace.length
    ∧ (runUndoOps fs l).succ + (runUndoOps fs l).failed = l.length
    ∧ (runUndoOps fs l).items.length = (runUndoOps fs l).failed
    ∧ List.Sublist (runUndoOps fs l).trace (l.map (fun op => (op.2, op.1)))
    ∧ validTrace fs (runUndoOps fs l).trace
    ∧ (runUndoOps fs l).fs = applyTrace fs (runUndoOps fs l).trace := by
  intro l
  induction l with
  | nil =>
    intro fs
    refine ⟨rfl, rfl, rfl, ?_, ?_, rfl⟩
    · simp [runUndoOps]
    · simp [runUndoOps, validTrace]
  | cons op rest ih =>
    intro fs
    obtain ⟨o, n⟩ := op
    by_cases h : fsExists fs n = true
    · have heq : runUndoOps fs ((o, n) :: rest) =
          UndoStep.mk (runUndoOps (fsMove fs n o) rest).fs
            ((runUndoOps (fsMove fs n o) rest).succ + 1)
            (runUndoOps (fsMove fs n o) rest).failed
            (runUndoOps (fsMove fs n o) rest).items
            ((n, o) :: (runUndoOps (fsMove fs n o) rest).trace) := by
        simp [runUndoOps, h]
      obtain ⟨i1, i2, i3, i4, i5, i6⟩ := ih (fsMove fs n o)
      rw [heq]
      refine ⟨by simp [i1], by simp; omega, i3, ?_, ?_, ?_⟩
      · simpa using List.Sublist.cons₂ (n, o) i4
      · exact ⟨h, i5⟩
      · simpa [applyTrace] using i6
    · have heq : runUndoOps fs ((o, n) :: rest) =
          UndoStep.mk (runUndoOps fs rest).fs (runUndoOps fs rest).succ
            ((runUndoOps fs rest).failed + 1)
            ((o, n, .missing n) :: (runUndoOps fs rest).items)
            (runUndoOps fs rest).trace := by
        simp [runUndoOps, h]
      obtain ⟨i1, i2, i3, i4, i5, i6⟩ := ih fs
      rw [heq]
      refine ⟨i1, by simp; omega, by simp [i3], ?_, i5, i6⟩
      simpa using List.Sublist.cons (n, o) i4

/-- Marking a batch undone preserves its position and payload in the
ledger lookup. -/
theorem batchById_markUndone (led : Ledger) (i : String) :
    ∀ b, batchById led i = some b →
      batchById (markUndone led i) i = some (UndoBatch.mk b.id true b.ops) := by
  induction led with
  | nil =>
    intro b h
    simp [batchById] at h
  | cons hd tl ih =>
    intro b h
    by_cases hid : (hd.id == i) = true
    · have hb : hd = b := by
        simp only [batchById, List.find?, hid] at h
        exact Option.some.inj h
      subst hb
      simp [batchById, markUndone, List.find?, hid]
    · have h2 : batchById tl i = some b := by
        simp only [batchById, List.find?, hid] at h
        exact h
      have h3 := ih b h2
      have hid2 : (hd.id == i) = false := by simpa using hid
      simpa [batchById, markUndone, List.find?, hid2] using h3

/-- C6: undoing a recorded, not-yet-undone batch replays its operations in
reverse sequence order (the performed moves form a sublist of the reversed
operation list, each moving newPath back to originalPath), moves a path
only when it exists at its turn, counts every operation as a success or a
per-item failure without aborting, changes the filesystem exactly by the
performed moves, and marks the batch undone regardless of failures. -/
theorem undo_reverse_replay (led : Ledger) (fs : FS) (batch_id : String)
    (b : UndoBatch) (hfind : batchById led batch_id = some b)
    (hundone : b.undone = false) :
    batchById (UndoManager.undo led fs batch_id).ledger batch_id =
        some (UndoBatch.mk b.id true b.ops)
    ∧ (UndoManager.undo led fs batch_id).result.success_count +
        (UndoManager.undo led fs batch_id).result.failed_count = b.ops.length
    ∧ (UndoManager.undo led fs batch_id).result.success_count =
        (UndoManager.undo led fs batch_id).trace.length
    ∧ (UndoManager.undo led fs batch_id).result.failed_items.length =
        (UndoManager.undo led fs batch_id).result.failed_count
    ∧ List.Sublist (UndoManager.undo led fs batch_id).trace
        (b.ops.reverse.map (fun op => (op.2, op.1)))
    ∧ validTrace fs (UndoManager.undo led fs batch_id).trace
    ∧ (UndoManager.undo led fs batch_id).fs =
        applyTrace fs (UndoManager.undo led fs batch_id).trace := by
  have hout : UndoManager.undo led fs batch_id =
      UndoOut.mk (markUndone led batch_id) (runUndoOps fs b.ops.reverse).fs
        (UndoResult.mk (runUndoOps fs b.ops.reverse).succ
          (runUndoOps fs b.ops.reverse).failed
          (runUndoOps fs b.ops.reverse).items)
        (runUndoOps fs b.ops.reverse).trace := by
    unfold UndoManager.undo
    rw [hfind]
    simp [hundone]
  obtain ⟨i1, i2, i3, i4, i5, i6⟩ := runUndoOps_spec b.ops.reverse fs
  rw [hout]
  exact ⟨batchById_markUndone led batch_id b hfind, by simpa using i2, i1, i3, i4, i5, i6⟩

/-- C6 witness: the theorem applied to a concrete one-operation batch whose
new path exists. -/
theorem undo_reverse_replay_witness :
    (batchById [UndoBatch.mk "b1" false [(["a".toList], ["b".toList])]] "b1" =
      some (UndoBatch.mk "b1" false [(["a".toList], ["b".toList])]))
    ∧ ((UndoBatch.mk "b1" false [(["a".toList], ["b".toList])]).undone = false)
    ∧ (batchById (UndoManager.undo
          [UndoBatch.mk "b1" false [(["a".toList], ["b".toList])]]
          [["b".toList]] "b1").ledger "b1" =
        some (UndoBatch.mk "b1" true [(["a".toList], ["b".toList])])
      ∧ (UndoManager.undo [UndoBatch.mk "b1" false [(["a".toList], ["b".toList])]]
          [["b".toList]] "b1").result.success_count +
        (UndoManager.undo [UndoBatch.mk "b1" false [(["a".toList], ["b".toList])]]
          [["b".toList]] "b1").result.failed_count =
        [(["a".toList], ["b".toList])].length
      ∧ (UndoManager.undo [UndoBatch.mk "b1" false [(["a".toList], ["b".toList])]]
          [["b".toList]] "b1").result.success_count =
        (UndoManager.undo [UndoBatch.mk "b1" false [(["a".toList], ["b".toList])]]
          [["b".toList]] "b1").trace.length
      ∧ (UndoManager.undo [UndoBatch.mk "b1" false [(["a".toList], ["b".toList])]]
          [["b".toList]] "b1").result.failed_items.length =
        (UndoManager.undo [UndoBatch.mk "b1" false [(["a".toList], ["b".toList])]]
          [["b".toList]] "b1").result.failed_count
      ∧ List.Sublist (UndoManager.undo
          [UndoBatch.mk "b1" false [(["a".toList], ["b".toList])]]
          [["b".toList]] "b1").trace
          ([(["a".toList], ["b".toList])].reverse.map (fun op => (op.2, op.1)))
      ∧ validTrace [["b".toList]] (UndoManager.undo
          [UndoBatch.mk "b1" false [(["a".toList], ["b".toList])]]
          [["b".toList]] "b1").trace
      ∧ (UndoManager.undo [UndoBatch.mk "b1" false [(["a".toList], ["b".toList])]]
          [["b".toList]] "b1").fs =
        applyTrace [["b".toList]] (UndoManager.undo
          [UndoBatch.mk "b1" false [(["a".toList], ["b".toList])]]
          [["b".toList]] "b1").trace) :=
  ⟨rfl, rfl, undo_reverse_replay
    [UndoBatch.mk "b1" false [(["a".toList], ["b".toList])]] [["b".toList]] "b1"
    (UndoBatch.mk "b1" false [(["a".toList], ["b".toList])]) rfl rfl⟩

/-- C7: undoing an unknown or already-undone batch id returns a zero-success
result with a non-empty failure reason, performs no filesystem move and
leaves the ledger unchanged (the embedding is a total function, so no
exception is possible). -/
theorem undo_unknown_or_undone_noop (led : Ledger) (fs : FS) (batch_id : String)
    (h : batchById led batch_id = none ∨
         ∃ b, batchById led batch_id = some b ∧ b.undone = true) :
    (UndoManager.undo led fs batch_id).ledger = led
    ∧ (UndoManager.undo led fs batch_id).fs = fs
    ∧ (UndoManager.undo led fs batch_id).trace = []
    ∧ (UndoManager.undo led fs batch_id).result.success_count = 0
    ∧ (UndoManager.undo led fs batch_id).result.failed_items ≠ [] := by
  rcases h with h | ⟨b, hb, hu⟩
  · unfold UndoManager.undo
    rw [h]
    simp
  · unfold UndoManager.undo
    rw [hb]
    simp [hu]

/-- C7 witness: the theorem applied to an already-undone concrete batch. -/
theorem undo_unknown_or_undone_noop_witness :
    (batchById [UndoBatch.mk "b1" true []] "b1" = none ∨
      ∃ b, batchById [UndoBatch.mk "b1" true []] "b1" = some b ∧ b.undone = true)
    ∧ ((UndoManager.undo [UndoBatch.mk "b1" true []] [] "b1").ledger =
        [UndoBatch.mk "b1" true []]
      ∧ (UndoManager.undo [UndoBatch.mk "b1" true []] [] "b1").fs = []
      ∧ (UndoManager.undo [UndoBatch.mk "b1" true []] [] "b1").trace = []
      ∧ (UndoManager.undo [UndoBatch.mk "b1" true []] [] "b1").result.success_count = 0
      ∧ (UndoManager.undo [UndoBatch.mk "b1" true []] [] "b1").result.failed_items ≠ []) :=
  ⟨Or.inr ⟨UndoBatch.mk "b1" true [], rfl, rfl⟩,
   undo_unknown_or_undone_noop [UndoBatch.mk "b1" true []] [] "b1"
     (Or.inr ⟨UndoBatch.mk "b1" true [], rfl, rfl⟩)⟩

/-- C8: a dry run of `rename_batch` touches neither the filesystem nor the
ledger, returns the empty operation id, a success count equal to the number
of valid operations and a skipped count equal to the conflict count; a real
run also reports a skipped count equal to the conflict count. -/
theorem rename_batch_dry_run_frame (tree : List RenameNode) (base_path : FsPath)
    (fs : FS) (led : Ledger) (freshId : String)
    (ops : List (FsPath × FsPath)) (conflicts : List Conflict)
    (h : ConflictValidator.get_valid_operations tree base_path fs true =
      .ok (ops, conflicts)) :
    FileRenamer.rename_batch tree base_path fs led true freshId =
      .ok (RenameResult.mk ops.length 0 conflicts.length conflicts "", fs, led)
    ∧ ∀ res fs2 led2,
        FileRenamer.rename_batch tree base_path fs led false freshId =
          .ok (res, fs2, led2) →
        res.skipped_count = conflicts.length := by
  constructor
  · unfold FileRenamer.rename_batch
    rw [h]
    simp
  · intro res fs2 led2 hr
    unfold FileRenamer.rename_batch at hr
    rw [h] at hr
    simp only [Bool.false_eq_true, if_false, Except.ok.injEq, Prod.mk.injEq] at hr
    obtain ⟨h1, _, _⟩ := hr
    rw [← h1]

/-- C8 witness: the theorem applied at a concrete tree, filesystem and
ledger. -/
theorem rename_batch_dry_run_frame_witness :
    (ConflictValidator.get_valid_operations
      [.file "a.txt".toList "b.txt".toList, .file "c.txt".toList "b.txt".toList] []
      [["a.txt".toList], ["c.txt".toList]] true =
      .ok ([(["a.txt".toList], ["b.txt".toList])],
           [Conflict.mk .duplicate_target ["c.txt".toList] ["b.txt".toList]
             (.skipDup "c.txt".toList)]))
    ∧ (FileRenamer.rename_batch
        [.file "a.txt".toList "b.txt".toList, .file "c.txt".toList "b.txt".toList] []
        [["a.txt".toList], ["c.txt".toList]] [] true "id1" =
        .ok (RenameResult.mk
          [(["a.txt".toList], ["b.txt".toList])].length 0
          [Conflict.mk .duplicate_target ["c.txt".toList] ["b.txt".toList]
            (.skipDup "c.txt".toList)].length
          [Conflict.mk .duplicate_target ["c.txt".toList] ["b.txt".toList]
            (.skipDup "c.txt".toList)] "",
          [["a.txt".toList], ["c.txt".toList]], [])
      ∧ ∀ res fs2 led2,
          FileRenamer.rename_batch
            [.file "a.txt".toList "b.txt".toList, .file "c.txt".toList "b.txt".toList] []
            [["a.txt".toList], ["c.txt".toList]] [] false "id1" =
            .ok (res, fs2, led2) →
          res.skipped_count =
            [Conflict.mk .duplicate_target ["c.txt".toList] ["b.txt".toList]
              (.skipDup "c.txt".toList)].length) :=
  ⟨rfl, rename_batch_dry_run_frame
    [.file "a.txt".toList "b.txt".toList, .file "c.txt".toList "b.txt".toList] []
    [["a.txt".toList], ["c.txt".toList]] [] "id1"
    [(["a.txt".toList], ["b.txt".toList])]
    [Conflict.mk .duplicate_target ["c.txt".toList] ["b.txt".toList]
      (.skipDup "c.txt".toList)] rfl⟩

end Trename
